import Mathlib

/-!
Verification of the geometry core of the `perspective` wireframe renderer.

The source is embedded shallowly over exact rationals (`ℚ`): the Python
floats become `ℚ`, and the transcendental pair `cos θ`, `sin θ` computed by
`rotate_around_y` from `angle_degrees` is abstracted as an arbitrary pair of
parameters `(c, s)`, so every theorem quantifying over `(c, s)` covers every
angle.  List comprehensions and generator `min`/`max`/`sum` become `List.map`
with `List.foldl`/`List.sum`.  Python's `set` of canonicalized edge tuples
becomes a `Finset (ℕ × ℕ)`.
-/

/-- Mirror of `geometry.Point3D`: three coordinates. -/
structure Point3D where
  x : ℚ
  y : ℚ
  z : ℚ
deriving DecidableEq, Repr

/-- Mirror of `geometry.Scene`: a point list plus an edge (index-pair) list. -/
structure Scene where
  points : List Point3D
  lines : List (ℕ × ℕ)
deriving DecidableEq, Repr

/-- Minimum of a rational list, as Python's `min` over a nonempty iterable
(the `[]` case is never reached by the guarded callers). -/
def listMin : List ℚ → ℚ
  | [] => 0
  | q :: qs => qs.foldl min q

/-- Maximum of a rational list, as Python's `max` over a nonempty iterable. -/
def listMax : List ℚ → ℚ
  | [] => 0
  | q :: qs => qs.foldl max q

/-- Loop body of `transforms.rotate_around_y`: with `c = cos θ`, `s = sin θ`,
maps `(x, y, z)` to `(x·c + z·s, y, -x·s + z·c)`. -/
def rotatePoint (c s : ℚ) (p : Point3D) : Point3D :=
  ⟨p.x * c + p.z * s, p.y, -p.x * s + p.z * c⟩

/-- Mirror of `transforms.rotate_around_y`, with `cos`/`sin` of the converted
angle abstracted as the parameters `c` and `s`. -/
def rotate_around_y (points : List Point3D) (c s : ℚ) : List Point3D :=
  points.map (rotatePoint c s)

/-- The per-axis arithmetic-mean center computed inside
`transforms.rotate_object_around_its_y_axis` (`center_x`, `center_y`,
`center_z`). -/
def centroid (points : List Point3D) : Point3D :=
  ⟨(points.map Point3D.x).sum / (points.length : ℚ),
   (points.map Point3D.y).sum / (points.length : ℚ),
   (points.map Point3D.z).sum / (points.length : ℚ)⟩

/-- Mirror of `transforms.rotate_object_around_its_y_axis`: translate by the
negated centroid, rotate about Y at the origin, translate back.  Empty input
is returned unchanged by the guard `if not points`. -/
def rotate_object_around_its_y_axis (points : List Point3D) (c s : ℚ) :
    List Point3D :=
  if points.isEmpty then points
  else
    let ctr := centroid points
    let translated := points.map fun p =>
      (⟨p.x - ctr.x, p.y - ctr.y, p.z - ctr.z⟩ : Point3D)
    let rotated := rotate_around_y translated c s
    rotated.map fun p => (⟨p.x + ctr.x, p.y + ctr.y, p.z + ctr.z⟩ : Point3D)

/-- The whole-list composite applied to each point by
`rotate_object_around_its_y_axis` (translate, rotate, translate back). -/
def rotateObjectPoint (points : List Point3D) (c s : ℚ) (p : Point3D) :
    Point3D :=
  let ctr := centroid points
  let r := rotatePoint c s ⟨p.x - ctr.x, p.y - ctr.y, p.z - ctr.z⟩
  ⟨r.x + ctr.x, r.y + ctr.y, r.z + ctr.z⟩

/-- Midpoint of the axis-aligned bounding box per axis, as computed by
`transforms.normalize_scene` (`center_x`, `center_y`, `center_z`). -/
def bboxCenter (points : List Point3D) : Point3D :=
  ⟨(listMin (points.map Point3D.x) + listMax (points.map Point3D.x)) / 2,
   (listMin (points.map Point3D.y) + listMax (points.map Point3D.y)) / 2,
   (listMin (points.map Point3D.z) + listMax (points.map Point3D.z)) / 2⟩

/-- Half the bounding-box size per axis, as computed by
`transforms.normalize_scene` (`extent_x`, `extent_y`, `extent_z`). -/
def bboxHalfExtents (points : List Point3D) : Point3D :=
  ⟨(listMax (points.map Point3D.x) - listMin (points.map Point3D.x)) / 2,
   (listMax (points.map Point3D.y) - listMin (points.map Point3D.y)) / 2,
   (listMax (points.map Point3D.z) - listMin (points.map Point3D.z)) / 2⟩

/-- The largest half-extent `max(extent_x, extent_y, extent_z)` of
`transforms.normalize_scene` (before the division by `scale`). -/
def maxHalfExtent (points : List Point3D) : ℚ :=
  max (max (bboxHalfExtents points).x (bboxHalfExtents points).y)
    (bboxHalfExtents points).z

/-- Loop body of `transforms.normalize_scene`: recenter at the origin, divide
by `max_extent` when it is positive, then push `z` back by `distance`. -/
def normalizePoint (points : List Point3D) (distance scale : ℚ)
    (p : Point3D) : Point3D :=
  let ctr := bboxCenter points
  let max_extent := maxHalfExtent points / scale
  let x := p.x - ctr.x
  let y := p.y - ctr.y
  let z := p.z - ctr.z
  if max_extent > 0 then ⟨x / max_extent, y / max_extent, z / max_extent + distance⟩
  else ⟨x, y, z + distance⟩

/-- Mirror of `transforms.normalize_scene`: empty scenes are returned
unchanged; otherwise every point is normalized and the edge list is carried
over untouched. -/
def normalize_scene (scene : Scene) (distance scale : ℚ) : Scene :=
  if scene.points.isEmpty then scene
  else ⟨scene.points.map (normalizePoint scene.points distance scale),
        scene.lines⟩

/-- Per-face edge extraction inside `utils.faces_to_edges`: the wrap-around
pairs `(face[i], face[(i+1) % n])`, skipped when equal, canonicalized as
`tuple(sorted(...))`, i.e. `(min, max)`. -/
def face_edges (face : List ℕ) : List (ℕ × ℕ) :=
  (List.range face.length).filterMap fun i =>
    let a := face.getD i 0
    let b := face.getD ((i + 1) % face.length) 0
    if a ≠ b then some (min a b, max a b) else none

/-- Mirror of `utils.faces_to_edges`: the set of canonicalized wrap-around
edges of all faces (the Python `set`, so each edge appears once). -/
def faces_to_edges (faces : List (List ℕ)) : Finset (ℕ × ℕ) :=
  faces.foldl (fun acc face => acc ∪ (face_edges face).toFinset) ∅

/-- Mirror of `canvas.Canvas._project` with `self.focal_length` passed
explicitly: clamp `z` below by `0.1`, then `(f·x/z, f·y/z)`. -/
def project (focal_length : ℚ) (point : Point3D) : ℚ × ℚ :=
  let z := max point.z (1 / 10)
  (focal_length * point.x / z, focal_length * point.y / z)

/-! ### Helper lemmas about list sums, folds and the map structure -/

theorem sum_map_eq (l : List Point3D) (f g : Point3D → ℚ)
    (h : ∀ p, f p = g p) : (l.map f).sum = (l.map g).sum := by
  induction l with
  | nil => rfl
  | cons p t ih => simp [h, ih]

theorem sum_map_axes (l : List Point3D) (a b c k : ℚ) :
    (l.map fun p => p.x * a + p.y * b + p.z * c + k).sum =
      (l.map Point3D.x).sum * a + (l.map Point3D.y).sum * b +
        (l.map Point3D.z).sum * c + (l.length : ℚ) * k := by
  induction l with
  | nil => simp
  | cons p t ih =>
    simp only [List.map_cons, List.sum_cons, ih, List.length_cons]
    push_cast
    ring

theorem foldl_min_map (f : ℚ → ℚ)
    (hf : ∀ a b : ℚ, f (min a b) = min (f a) (f b)) :
    ∀ (qs : List ℚ) (q : ℚ), (qs.map f).foldl min (f q) = f (qs.foldl min q) := by
  intro qs
  induction qs with
  | nil => intro q; rfl
  | cons a t ih =>
    intro q
    simp only [List.map_cons, List.foldl_cons, ← hf, ih]

theorem foldl_max_map (f : ℚ → ℚ)
    (hf : ∀ a b : ℚ, f (max a b) = max (f a) (f b)) :
    ∀ (qs : List ℚ) (q : ℚ), (qs.map f).foldl max (f q) = f (qs.foldl max q) := by
  intro qs
  induction qs with
  | nil => intro q; rfl
  | cons a t ih =>
    intro q
    simp only [List.map_cons, List.foldl_cons, ← hf, ih]

theorem listMin_map (f : ℚ → ℚ)
    (hf : ∀ a b : ℚ, f (min a b) = min (f a) (f b))
    (l : List ℚ) (hl : l ≠ []) : listMin (l.map f) = f (listMin l) := by
  cases l with
  | nil => exact absurd rfl hl
  | cons q qs => simpa [listMin] using foldl_min_map f hf qs q

theorem listMax_map (f : ℚ → ℚ)
    (hf : ∀ a b : ℚ, f (max a b) = max (f a) (f b))
    (l : List ℚ) (hl : l ≠ []) : listMax (l.map f) = f (listMax l) := by
  cases l with
  | nil => exact absurd rfl hl
  | cons q qs => simpa [listMax] using foldl_max_map f hf qs q

theorem sub_div_add_mono (c m d : ℚ) (hm : 0 < m) :
    Monotone fun v : ℚ => (v - c) / m + d := by
  intro a b hab
  dsimp only
  gcongr

theorem foldl_min_le_foldl_max :
    ∀ (qs : List ℚ) (a b : ℚ), a ≤ b → qs.foldl min a ≤ qs.foldl max b := by
  intro qs
  induction qs with
  | nil => intro a b h; exact h
  | cons q t ih =>
    intro a b h
    exact ih _ _ (le_trans (min_le_left a q) (le_trans h (le_max_left b q)))

theorem listMin_le_listMax (l : List ℚ) (hl : l ≠ []) :
    listMin l ≤ listMax l := by
  cases l with
  | nil => exact absurd rfl hl
  | cons q qs => exact foldl_min_le_foldl_max qs q q le_rfl

theorem rotate_object_eq_map (points : List Point3D) (c s : ℚ) :
    rotate_object_around_its_y_axis points c s =
      points.map (rotateObjectPoint points c s) := by
  cases points with
  | nil => rfl
  | cons p ps =>
    simp only [rotate_object_around_its_y_axis, List.isEmpty_cons,
      Bool.false_eq_true, if_false, rotate_around_y, List.map_map]
    rfl

theorem normalize_points_eq (scene : Scene) (d sc : ℚ) :
    (normalize_scene scene d sc).points =
      scene.points.map (normalizePoint scene.points d sc) := by
  rcases scene with ⟨pts, lns⟩
  cases pts with
  | nil => rfl
  | cons p ps => rfl

theorem mem_foldl_union (faces : List (List ℕ)) (init : Finset (ℕ × ℕ))
    (e : ℕ × ℕ) :
    (e ∈ faces.foldl (fun acc face => acc ∪ (face_edges face).toFinset) init) ↔
      e ∈ init ∨ ∃ f ∈ faces, e ∈ face_edges f := by
  induction faces generalizing init with
  | nil => simp
  | cons f t ih =>
    simp only [List.foldl_cons, ih, Finset.mem_union, List.mem_toFinset,
      List.mem_cons]
    constructor
    · rintro ((h | h) | ⟨g, hg, he⟩)
      · exact Or.inl h
      · exact Or.inr ⟨f, Or.inl rfl, h⟩
      · exact Or.inr ⟨g, Or.inr hg, he⟩
    · rintro (h | ⟨g, (rfl | hg), he⟩)
      · exact Or.inl (Or.inl h)
      · exact Or.inl (Or.inr he)
      · exact Or.inr ⟨g, hg, he⟩

theorem mem_face_edges (face : List ℕ) (e : ℕ × ℕ) :
    e ∈ face_edges face ↔ ∃ i < face.length,
      face.getD i 0 ≠ face.getD ((i + 1) % face.length) 0 ∧
      e = (min (face.getD i 0) (face.getD ((i + 1) % face.length) 0),
           max (face.getD i 0) (face.getD ((i + 1) % face.length) 0)) := by
  simp only [face_edges, List.mem_filterMap, List.mem_range]
  constructor
  · rintro ⟨i, hi, hsome⟩
    rw [Option.ite_none_right_eq_some, Option.some.injEq] at hsome
    exact ⟨i, hi, hsome.1, hsome.2.symm⟩
  · rintro ⟨i, hi, hne, rfl⟩
    exact ⟨i, hi, if_pos hne⟩

theorem map_congr_fun {α β : Type} (l : List α) (f g : α → β)
    (h : ∀ a, f a = g a) : l.map f = l.map g :=
  (funext h : f = g) ▸ rfl

theorem face_edges_pair (a b : ℕ) (hab : a ≠ b) :
    face_edges [a, b] = [(min a b, max a b), (min b a, max b a)] := by
  have hr : List.range 2 = [0, 1] := rfl
  simp [face_edges, hr, hab, Ne.symm hab]

/-! ### Claims -/

/-- Claim C3: membership in `faces_to_edges` is exactly: some face has a
wrap-around consecutive index pair `(a, b)` with `a ≠ b` whose
canonicalization `(min a b, max a b)` is the edge — each edge once, since the
result is a set; and the single face `[0,1,2,3]` yields exactly
`{(0,1), (1,2), (2,3), (0,3)}`. -/
theorem faces_to_edges_spec :
    (∀ (faces : List (List ℕ)) (e : ℕ × ℕ),
      e ∈ faces_to_edges faces ↔ ∃ face ∈ faces, ∃ i < face.length,
        face.getD i 0 ≠ face.getD ((i + 1) % face.length) 0 ∧
        e = (min (face.getD i 0) (face.getD ((i + 1) % face.length) 0),
             max (face.getD i 0) (face.getD ((i + 1) % face.length) 0))) ∧
    faces_to_edges [[0, 1, 2, 3]] = {(0, 1), (1, 2), (2, 3), (0, 3)} := by
  constructor
  · intro faces e
    rw [faces_to_edges, mem_foldl_union]
    simp only [Finset.not_mem_empty, false_or, mem_face_edges]
  · decide

/-- Claim C4 counterexample: `faces_to_edges` does not reject a face with
fewer than 3 indices — on `[[0, 1]]` it returns normally and silently
extracts the single edge `(0, 1)`. -/
theorem faces_to_edges_short_face_counterexample :
    faces_to_edges [[0, 1]] = {(0, 1)} := by decide

/-- Claim C4 amended: `faces_to_edges` performs no arity validation: a
2-index face `[a, b]` with `a ≠ b` silently yields the single edge
`(min a b, max a b)`, and 1-index or empty faces yield no edges. -/
theorem faces_to_edges_short_face_behavior (a b : ℕ) (hab : a ≠ b) :
    faces_to_edges [[a, b]] = {(min a b, max a b)} ∧
    faces_to_edges [[a]] = ∅ ∧
    faces_to_edges [([] : List ℕ)] = ∅ := by
  refine ⟨?_, ?_, by decide⟩
  · rw [faces_to_edges]
    simp only [List.foldl_cons, List.foldl_nil, Finset.empty_union]
    rw [face_edges_pair a b hab, min_comm b a, max_comm b a]
    simp
  · rw [faces_to_edges]
    simp only [List.foldl_cons, List.foldl_nil, Finset.empty_union]
    have : face_edges [a] = [] := by simp [face_edges]
    simp [this]

/-- Claim C4 amended, witness at `a = 0`, `b = 1`. -/
theorem faces_to_edges_short_face_behavior_witness :
    (0 : ℕ) ≠ 1 ∧
      (faces_to_edges [[0, 1]] = {(min 0 1, max 0 1)} ∧
        faces_to_edges [[0]] = ∅ ∧
        faces_to_edges [([] : List ℕ)] = ∅) :=
  ⟨by decide, faces_to_edges_short_face_behavior 0 1 (by decide)⟩

/-- Claim C5: `rotate_around_y` maps each point `(x, y, z)` to
`(x·c + z·s, y, -x·s + z·c)`, where `(c, s)` stand for the cosine and sine
of the angle converted to radians; in particular at 90 degrees
(`c = cos(π/2) = 0`, `s = sin(π/2) = 1`) the point `(1, 0, 0)` maps to
`(0, 0, -1)`. -/
theorem rotate_around_y_formula :
    (∀ (points : List Point3D) (c s : ℚ),
      rotate_around_y points c s = points.map fun p =>
        (⟨p.x * c + p.z * s, p.y, -p.x * s + p.z * c⟩ : Point3D)) ∧
    rotate_around_y [⟨1, 0, 0⟩] 0 1 = [⟨0, 0, -1⟩] := by
  refine ⟨fun points c s => rfl, ?_⟩
  simp only [rotate_around_y, rotatePoint, List.map_cons, List.map_nil,
    List.cons.injEq, Point3D.mk.injEq, and_true]
  norm_num

/-- Claim C6: `project` divides by `max(z, 0.1)`, which is always positive
(never a division by zero, total, finite), and projecting `(1, 1, 0)` with
focal length 1 returns the finite pair `(10, 10)`. -/
theorem project_clamped_total :
    (∀ (f : ℚ) (p : Point3D),
      project f p =
        (f * p.x / max p.z (1 / 10), f * p.y / max p.z (1 / 10)) ∧
      0 < max p.z (1 / 10)) ∧
    project 1 ⟨1, 1, 0⟩ = (10, 10) := by
  refine ⟨fun f p => ⟨rfl, lt_of_lt_of_le (by norm_num) (le_max_right _ _)⟩, ?_⟩
  have hmax : max (0 : ℚ) (1 / 10) = 1 / 10 := max_eq_right (by norm_num)
  simp only [project, hmax, Prod.mk.injEq]
  norm_num

/-- Claim C8: for a point with `z` above the clamp threshold `0.1`, doubling
the focal length exactly doubles both projected coordinates. -/
theorem project_focal_scaling (f : ℚ) (p : Point3D) (hz : 1 / 10 < p.z) :
    project (2 * f) p = (2 * (project f p).1, 2 * (project f p).2) := by
  simp only [project]
  rw [Prod.mk.injEq]
  constructor <;> ring

/-- Claim C8 witness at `p = (1, 1, 1)`, `f = 3`. -/
theorem project_focal_scaling_witness :
    (1 / 10 : ℚ) < (1 : ℚ) ∧
      project (2 * 3) ⟨1, 1, 1⟩ =
        (2 * (project 3 ⟨1, 1, 1⟩).1, 2 * (project 3 ⟨1, 1, 1⟩).2) :=
  ⟨by norm_num, project_focal_scaling 3 ⟨1, 1, 1⟩ (by norm_num)⟩

/-- Claim C9: `normalize_scene` carries the edge list through unchanged in
both branches — normalization never alters topology. -/
theorem normalize_scene_preserves_edges (scene : Scene) (d sc : ℚ) :
    (normalize_scene scene d sc).lines = scene.lines := by
  rcases scene with ⟨pts, lns⟩
  cases pts with
  | nil => rfl
  | cons p ps => rfl

/-- Claim C10: each of `rotate_around_y`, `rotate_object_around_its_y_axis`
and `normalize_scene` returns exactly the elementwise image of its input
point sequence (so lengths are preserved and index `i` of the output is the
image of index `i` of the input, keeping every edge index valid and attached
to the same vertex). -/
theorem transforms_preserve_indexing (points : List Point3D) (c s : ℚ)
    (scene : Scene) (d sc : ℚ) :
    rotate_around_y points c s = points.map (rotatePoint c s) ∧
    rotate_object_around_its_y_axis points c s =
      points.map (rotateObjectPoint points c s) ∧
    (normalize_scene scene d sc).points =
      scene.points.map (normalizePoint scene.points d sc) ∧
    (rotate_around_y points c s).length = points.length ∧
    (rotate_object_around_its_y_axis points c s).length = points.length ∧
    ((normalize_scene scene d sc).points).length = scene.points.length := by
  refine ⟨rfl, rotate_object_eq_map points c s, normalize_points_eq scene d sc,
    ?_, ?_, ?_⟩
  · simp [rotate_around_y]
  · simp [rotate_object_eq_map]
  · simp [normalize_points_eq]

/-- Claim C1: for every non-empty point list and every angle (any cosine and
sine pair `(c, s)`), the per-axis arithmetic-mean centroid of
`rotate_object_around_its_y_axis points c s` equals the centroid of the
input — rotation about the object's own center never displaces it, exactly
over `ℚ`. -/
theorem rotate_object_centroid_invariant (points : List Point3D) (c s : ℚ)
    (h : points ≠ []) :
    centroid (rotate_object_around_its_y_axis points c s) = centroid points := by
  have hn : (points.length : ℚ) ≠ 0 :=
    Nat.cast_ne_zero.mpr (List.length_pos.mpr h).ne'
  rw [rotate_object_eq_map]
  have hx : ((points.map (rotateObjectPoint points c s)).map Point3D.x).sum =
      (points.map fun p => p.x * c + p.y * 0 + p.z * s +
        ((centroid points).x * (1 - c) - (centroid points).z * s)).sum := by
    rw [List.map_map]
    exact sum_map_eq points _ _ fun p => by
      dsimp only [Function.comp, rotateObjectPoint, rotatePoint]
      ring
  have hy : ((points.map (rotateObjectPoint points c s)).map Point3D.y).sum =
      (points.map fun p => p.x * 0 + p.y * 1 + p.z * 0 + 0).sum := by
    rw [List.map_map]
    exact sum_map_eq points _ _ fun p => by
      dsimp only [Function.comp, rotateObjectPoint, rotatePoint]
      ring
  have hz : ((points.map (rotateObjectPoint points c s)).map Point3D.z).sum =
      (points.map fun p => p.x * (-s) + p.y * 0 + p.z * c +
        ((centroid points).x * s + (centroid points).z * (1 - c))).sum := by
    rw [List.map_map]
    exact sum_map_eq points _ _ fun p => by
      dsimp only [Function.comp, rotateObjectPoint, rotatePoint]
      ring
  show (⟨_, _, _⟩ : Point3D) = centroid points
  rw [Point3D.mk.injEq]
  refine ⟨?_, ?_, ?_⟩
  · rw [hx, sum_map_axes, List.length_map]
    show (_ : ℚ) = (points.map Point3D.x).sum / (points.length : ℚ)
    dsimp only [centroid]
    field_simp
    ring
  · rw [hy, sum_map_axes, List.length_map]
    show (_ : ℚ) = (points.map Point3D.y).sum / (points.length : ℚ)
    field_simp
  · rw [hz, sum_map_axes, List.length_map]
    show (_ : ℚ) = (points.map Point3D.z).sum / (points.length : ℚ)
    dsimp only [centroid]
    field_simp
    ring

/-- Claim C1 witness: the two-point set `{(1,0,0), (0,0,1)}` rotated by 90
degrees (`c = 0`, `s = 1`) keeps its centroid `(1/2, 0, 1/2)`. -/
theorem rotate_object_centroid_invariant_witness :
    ([(⟨1, 0, 0⟩ : Point3D), ⟨0, 0, 1⟩] ≠ []) ∧
      centroid (rotate_object_around_its_y_axis
          [(⟨1, 0, 0⟩ : Point3D), ⟨0, 0, 1⟩] 0 1) =
        centroid [(⟨1, 0, 0⟩ : Point3D), ⟨0, 0, 1⟩] :=
  ⟨by simp, rotate_object_centroid_invariant _ 0 1 (by simp)⟩

theorem foldl_min_self (n : ℕ) (v : ℚ) :
    (List.replicate n v).foldl min v = v := by
  induction n with
  | zero => rfl
  | succ m ih => simpa [List.replicate_succ, min_self] using ih

theorem foldl_max_self (n : ℕ) (v : ℚ) :
    (List.replicate n v).foldl max v = v := by
  induction n with
  | zero => rfl
  | succ m ih => simpa [List.replicate_succ, max_self] using ih

theorem listMin_replicate (n : ℕ) (v : ℚ) :
    listMin (List.replicate (n + 1) v) = v := by
  rw [List.replicate_succ]
  exact foldl_min_self n v

theorem listMax_replicate (n : ℕ) (v : ℚ) :
    listMax (List.replicate (n + 1) v) = v := by
  rw [List.replicate_succ]
  exact foldl_max_self n v

theorem centroid_replicate (n : ℕ) (p : Point3D) :
    centroid (List.replicate (n + 1) p) = p := by
  obtain ⟨px, py, pz⟩ := p
  have hn : ((n : ℚ) + 1) ≠ 0 := by positivity
  simp only [centroid, List.map_replicate, List.sum_replicate,
    List.length_replicate, nsmul_eq_mul, Point3D.mk.injEq]
  push_cast
  refine ⟨?_, ?_, ?_⟩ <;> field_simp

theorem bboxCenter_replicate (n : ℕ) (p : Point3D) :
    bboxCenter (List.replicate (n + 1) p) = p := by
  obtain ⟨px, py, pz⟩ := p
  simp only [bboxCenter, List.map_replicate, listMin_replicate,
    listMax_replicate, Point3D.mk.injEq]
  refine ⟨by ring, by ring, by ring⟩

theorem maxHalfExtent_replicate (n : ℕ) (p : Point3D) :
    maxHalfExtent (List.replicate (n + 1) p) = 0 := by
  simp only [maxHalfExtent, bboxHalfExtents, List.map_replicate,
    listMin_replicate, listMax_replicate, sub_self, zero_div, max_self]

theorem rotateObjectPoint_replicate (n : ℕ) (p : Point3D) (c s : ℚ) :
    rotateObjectPoint (List.replicate (n + 1) p) c s p = p := by
  obtain ⟨px, py, pz⟩ := p
  simp only [rotateObjectPoint, rotatePoint, centroid_replicate,
    Point3D.mk.injEq]
  refine ⟨by ring, by ring, by ring⟩

theorem normalizePoint_replicate (n : ℕ) (p : Point3D) (d sc : ℚ) :
    normalizePoint (List.replicate (n + 1) p) d sc p = ⟨0, 0, d⟩ := by
  obtain ⟨px, py, pz⟩ := p
  simp only [normalizePoint, bboxCenter_replicate, maxHalfExtent_replicate,
    zero_div]
  rw [if_neg (lt_irrefl (0 : ℚ))]
  simp only [Point3D.mk.injEq]
  refine ⟨by ring, by ring, by ring⟩

theorem rotate_object_replicate (n : ℕ) (p : Point3D) (c s : ℚ) :
    rotate_object_around_its_y_axis (List.replicate (n + 1) p) c s =
      List.replicate (n + 1) p := by
  rw [rotate_object_eq_map, List.map_replicate, rotateObjectPoint_replicate]

theorem normalize_scene_replicate (n : ℕ) (p : Point3D)
    (lines : List (ℕ × ℕ)) (d sc : ℚ) :
    normalize_scene ⟨List.replicate (n + 1) p, lines⟩ d sc =
      ⟨List.replicate (n + 1) (⟨0, 0, d⟩ : Point3D), lines⟩ := by
  have hne : (List.replicate (n + 1) p).isEmpty = false := by
    simp [List.replicate_succ]
  simp only [normalize_scene, hne, Bool.false_eq_true, if_false]
  rw [Scene.mk.injEq]
  exact ⟨by rw [List.map_replicate, normalizePoint_replicate], rfl⟩

/-- Claim C7 counterexample: a zero-extent scene is not returned unchanged by
`normalize_scene` — the single-point scene `(1,2,3)` with `distance = 5`,
`scale = 1` is recentered and pushed to `(0,0,5)`. -/
theorem normalize_degenerate_counterexample :
    normalize_scene ⟨[⟨1, 2, 3⟩], []⟩ 5 1 = ⟨[⟨0, 0, 5⟩], []⟩ ∧
    normalize_scene ⟨[⟨1, 2, 3⟩], []⟩ 5 1 ≠ ⟨[⟨1, 2, 3⟩], []⟩ := by
  have h : normalize_scene ⟨[⟨1, 2, 3⟩], []⟩ 5 1 = ⟨[⟨0, 0, 5⟩], []⟩ :=
    normalize_scene_replicate 0 ⟨1, 2, 3⟩ [] 5 1
  refine ⟨h, ?_⟩
  intro hcontra
  rw [h] at hcontra
  norm_num [Scene.mk.injEq, Point3D.mk.injEq] at hcontra

/-- Claim C7 amended: the empty point list and the empty scene are returned
unchanged by explicit short-circuit branches, and (for positive `scale`)
nothing raises or produces non-finite values in the total `ℚ` embedding; a
zero-extent (all points coincident) scene is, however, not returned
unchanged by `normalize_scene`: the division is skipped and every point is
moved to `(0, 0, distance)` — while `rotate_object_around_its_y_axis` does
map a coincident point set to itself (by computation, not a short-circuit). -/
theorem degenerate_geometry_handling (c s d sc : ℚ) (lines : List (ℕ × ℕ))
    (p : Point3D) (n : ℕ) (hsc : 0 < sc) :
    rotate_object_around_its_y_axis [] c s = [] ∧
    normalize_scene ⟨[], lines⟩ d sc = ⟨[], lines⟩ ∧
    rotate_object_around_its_y_axis (List.replicate (n + 1) p) c s =
      List.replicate (n + 1) p ∧
    normalize_scene ⟨List.replicate (n + 1) p, lines⟩ d sc =
      ⟨List.replicate (n + 1) (⟨0, 0, d⟩ : Point3D), lines⟩ :=
  ⟨rfl, rfl, rotate_object_replicate n p c s,
    normalize_scene_replicate n p lines d sc⟩

/-- Claim C7 amended, witness at `c = 0`, `s = 1`, `distance = 5`,
`scale = 1`, point `(1,2,3)` repeated once. -/
theorem degenerate_geometry_handling_witness :
    (0 : ℚ) < 1 ∧
      (rotate_object_around_its_y_axis [] 0 1 = [] ∧
        normalize_scene ⟨[], []⟩ 5 1 = ⟨[], []⟩ ∧
        rotate_object_around_its_y_axis (List.replicate 1 (⟨1, 2, 3⟩ : Point3D)) 0 1 =
          List.replicate 1 (⟨1, 2, 3⟩ : Point3D) ∧
        normalize_scene ⟨List.replicate 1 (⟨1, 2, 3⟩ : Point3D), []⟩ 5 1 =
          ⟨List.replicate 1 (⟨0, 0, 5⟩ : Point3D), []⟩) :=
  ⟨by norm_num, degenerate_geometry_handling 0 1 5 1 [] ⟨1, 2, 3⟩ 0 (by norm_num)⟩

theorem div_mono (m : ℚ) (hm : 0 < m) : Monotone fun v : ℚ => v / m := by
  intro a b hab
  dsimp only
  gcongr

theorem sub_div_mono (c m : ℚ) (hm : 0 < m) :
    Monotone fun v : ℚ => (v - c) / m := by
  intro a b hab
  dsimp only
  gcongr

theorem max_div_pos (a b m : ℚ) (hm : 0 < m) :
    max (a / m) (b / m) = max a b / m :=
  ((div_mono m hm).map_max).symm

theorem map_ne_nil {α β : Type} (l : List α) (f : α → β) (h : l ≠ []) :
    l.map f ≠ [] := by
  cases l with
  | nil => exact absurd rfl h
  | cons a t => simp

theorem listMin_map_mono (f : ℚ → ℚ) (hf : Monotone f) (l : List ℚ)
    (hl : l ≠ []) : listMin (l.map f) = f (listMin l) :=
  listMin_map f (fun a b => hf.map_min) l hl

theorem listMax_map_mono (f : ℚ → ℚ) (hf : Monotone f) (l : List ℚ)
    (hl : l ≠ []) : listMax (l.map f) = f (listMax l) :=
  listMax_map f (fun a b => hf.map_max) l hl

theorem normalize_bbox_core (pts : List Point3D) (d sc : ℚ) (hne : pts ≠ [])
    (hM0 : 0 < maxHalfExtent pts) (hsc : 0 < sc) :
    bboxCenter (pts.map (normalizePoint pts d sc)) = ⟨0, 0, d⟩ ∧
    maxHalfExtent (pts.map (normalizePoint pts d sc)) = sc := by
  have hM : 0 < maxHalfExtent pts / sc := div_pos hM0 hsc
  have L1 : (pts.map (normalizePoint pts d sc)).map Point3D.x =
      (pts.map Point3D.x).map
        (fun v => (v - (bboxCenter pts).x) / (maxHalfExtent pts / sc)) := by
    rw [List.map_map, List.map_map]
    refine map_congr_fun pts _ _ fun p => ?_
    dsimp only [Function.comp, normalizePoint]
    rw [if_pos hM]
  have L2 : (pts.map (normalizePoint pts d sc)).map Point3D.y =
      (pts.map Point3D.y).map
        (fun v => (v - (bboxCenter pts).y) / (maxHalfExtent pts / sc)) := by
    rw [List.map_map, List.map_map]
    refine map_congr_fun pts _ _ fun p => ?_
    dsimp only [Function.comp, normalizePoint]
    rw [if_pos hM]
  have L3 : (pts.map (normalizePoint pts d sc)).map Point3D.z =
      (pts.map Point3D.z).map
        (fun v => (v - (bboxCenter pts).z) / (maxHalfExtent pts / sc) + d) := by
    rw [List.map_map, List.map_map]
    refine map_congr_fun pts _ _ fun p => ?_
    dsimp only [Function.comp, normalizePoint]
    rw [if_pos hM]
  have hnx := map_ne_nil pts Point3D.x hne
  have hny := map_ne_nil pts Point3D.y hne
  have hnz := map_ne_nil pts Point3D.z hne
  have mx := sub_div_mono ((bboxCenter pts).x) (maxHalfExtent pts / sc) hM
  have my := sub_div_mono ((bboxCenter pts).y) (maxHalfExtent pts / sc) hM
  have mz := sub_div_add_mono ((bboxCenter pts).z) (maxHalfExtent pts / sc) d hM
  constructor
  · have hx0 : (bboxCenter (pts.map (normalizePoint pts d sc))).x = 0 := by
      dsimp only [bboxCenter]
      rw [L1, listMin_map_mono _ mx _ hnx, listMax_map_mono _ mx _ hnx]
      dsimp only [bboxCenter]
      field_simp
      ring
    have hy0 : (bboxCenter (pts.map (normalizePoint pts d sc))).y = 0 := by
      dsimp only [bboxCenter]
      rw [L2, listMin_map_mono _ my _ hny, listMax_map_mono _ my _ hny]
      dsimp only [bboxCenter]
      field_simp
      ring
    have hz0 : (bboxCenter (pts.map (normalizePoint pts d sc))).z = d := by
      dsimp only [bboxCenter]
      rw [L3, listMin_map_mono _ mz _ hnz, listMax_map_mono _ mz _ hnz]
      dsimp only [bboxCenter]
      field_simp
      ring
    calc bboxCenter (pts.map (normalizePoint pts d sc))
        = ⟨(bboxCenter (pts.map (normalizePoint pts d sc))).x,
           (bboxCenter (pts.map (normalizePoint pts d sc))).y,
           (bboxCenter (pts.map (normalizePoint pts d sc))).z⟩ := rfl
      _ = ⟨0, 0, d⟩ := by rw [hx0, hy0, hz0]
  · have E1 : (bboxHalfExtents (pts.map (normalizePoint pts d sc))).x =
        (bboxHalfExtents pts).x / (maxHalfExtent pts / sc) := by
      dsimp only [bboxHalfExtents]
      rw [L1, listMin_map_mono _ mx _ hnx, listMax_map_mono _ mx _ hnx]
      ring
    have E2 : (bboxHalfExtents (pts.map (normalizePoint pts d sc))).y =
        (bboxHalfExtents pts).y / (maxHalfExtent pts / sc) := by
      dsimp only [bboxHalfExtents]
      rw [L2, listMin_map_mono _ my _ hny, listMax_map_mono _ my _ hny]
      ring
    have E3 : (bboxHalfExtents (pts.map (normalizePoint pts d sc))).z =
        (bboxHalfExtents pts).z / (maxHalfExtent pts / sc) := by
      dsimp only [bboxHalfExtents]
      rw [L3, listMin_map_mono _ mz _ hnz, listMax_map_mono _ mz _ hnz]
      ring
    show max (max (bboxHalfExtents (pts.map (normalizePoint pts d sc))).x
        (bboxHalfExtents (pts.map (normalizePoint pts d sc))).y)
        (bboxHalfExtents (pts.map (normalizePoint pts d sc))).z = sc
    rw [E1, E2, E3, max_div_pos _ _ _ hM, max_div_pos _ _ _ hM]
    show maxHalfExtent pts / (maxHalfExtent pts / sc) = sc
    rw [div_div_eq_mul_div, mul_comm, mul_div_assoc, div_self hM0.ne', mul_one]

/-- Claim C2: when the input scene's largest half-extent is nonzero and the
scale is positive, `normalize_scene` produces a scene whose axis-aligned
bounding box is centered at `(0, 0, distance)` and whose largest half-extent
equals `scale`, exactly over `ℚ`. -/
theorem normalize_scene_bounding (scene : Scene) (d sc : ℚ)
    (hext : maxHalfExtent scene.points ≠ 0) (hsc : 0 < sc) :
    bboxCenter (normalize_scene scene d sc).points = ⟨0, 0, d⟩ ∧
    maxHalfExtent (normalize_scene scene d sc).points = sc := by
  have hne : scene.points ≠ [] := by
    intro h0
    apply hext
    rw [h0]
    norm_num [maxHalfExtent, bboxHalfExtents, listMin, listMax]
  have hx : 0 ≤ (bboxHalfExtents scene.points).x := by
    dsimp only [bboxHalfExtents]
    have := listMin_le_listMax (scene.points.map Point3D.x)
      (map_ne_nil _ _ hne)
    linarith
  have hge : 0 ≤ maxHalfExtent scene.points :=
    le_trans hx (le_trans (le_max_left _ _) (le_max_left _ _))
  have hM0 : 0 < maxHalfExtent scene.points := lt_of_le_of_ne hge (Ne.symm hext)
  rw [normalize_points_eq]
  exact normalize_bbox_core scene.points d sc hne hM0 hsc

/-- Claim C2 witness: the two-point scene `{(0,0,0), (2,0,0)}` (half-extent
1) normalized with `distance = 10`, `scale = 1` has bounding box centered at
`(0, 0, 10)` with largest half-extent 1. -/
theorem normalize_scene_bounding_witness :
    (maxHalfExtent (Scene.mk [⟨0, 0, 0⟩, ⟨2, 0, 0⟩] []).points ≠ 0 ∧
        (0 : ℚ) < 1) ∧
      (bboxCenter (normalize_scene ⟨[⟨0, 0, 0⟩, ⟨2, 0, 0⟩], []⟩ 10 1).points =
          ⟨0, 0, 10⟩ ∧
        maxHalfExtent (normalize_scene ⟨[⟨0, 0, 0⟩, ⟨2, 0, 0⟩], []⟩ 10 1).points =
          1) :=
  ⟨⟨by norm_num [maxHalfExtent, bboxHalfExtents, listMin, listMax], by norm_num⟩,
    normalize_scene_bounding ⟨[⟨0, 0, 0⟩, ⟨2, 0, 0⟩], []⟩ 10 1
      (by norm_num [maxHalfExtent, bboxHalfExtents, listMin, listMax])
      (by norm_num)⟩
